import Mathlib

/-!
Shallow embedding of the marl-delivery simulation core (src/envs/env.py).

Conventions of the embedding:
* Python `(row, col)` integer pairs become `Pos := Int × Int` (moves may
  produce negative coordinates, which `valid_position` then rejects).
* Python float rewards become `Rat`; the reward constants are carried as
  fields of `Env` exactly like the attributes of `Environment.__init__`.
* The mutable arrays `computed_moved` / `final_positions` of the scan loop
  in `Environment.step` are embedded as functions `Nat → Bool` /
  `Nat → Option Pos`; the `occupied` dict is embedded as the list of its
  keys (its values are never read by the source).
* Python exceptions become `Except String`; statuses `'None'`, `'waiting'`,
  `'in_transit'`, `'delivered'` become the constructors of `Status`
  (`pending` stands for the source's `'None'`).
* Rendering, GIF export and the numpy RandomState internals are out of
  scope; random draws are passed in as explicit natural numbers.
-/

namespace MarlDelivery

abbrev Pos := Int × Int

/-- List indexing with the junk default `(0, 0)`, used where the Python code
indexes a list that is known (at call sites) to be long enough. -/
def pget (l : List Pos) (i : Nat) : Pos :=
  (l[i]?).getD (0, 0)

/-- Robot.__init__ (env.py:7-10): a position and a carried package id
(0 meaning empty hands). -/
structure Robot where
  position : Pos
  carrying : Nat
  deriving DecidableEq, Repr

/-- Package statuses (env.py:19): `pending` embeds the source string
`'None'`; the others embed `'waiting'`, `'in_transit'`, `'delivered'`. -/
inductive Status where
  | pending
  | waiting
  | in_transit
  | delivered
  deriving DecidableEq, Repr

/-- Package.__init__ (env.py:12-19). -/
structure Package where
  start : Pos
  start_time : Nat
  target : Pos
  deadline : Nat
  package_id : Nat
  status : Status
  deriving DecidableEq, Repr

/-- The simulation state: the mutable attributes of `Environment`
(env.py:21-51) that the step/reset logic reads or writes.  The
visualization-only attributes (`frames`, `results_dir`, ...) and the
`rng` are omitted. -/
structure Env where
  grid : List (List Nat)
  n_rows : Nat
  n_cols : Nat
  move_cost : Rat
  delivery_reward : Rat
  delay_reward : Rat
  t : Nat
  robots : List Robot
  packages : List Package
  total_reward : Rat
  max_time_steps : Nat
  deriving DecidableEq, Repr

/-- Environment.compute_new_position (env.py:326-342): the raw target cell
for a move symbol; any symbol other than the five listed ones falls into
the final `else` branch and leaves the position unchanged. -/
def compute_new_position (position : Pos) (move : String) : Pos :=
  let r := position.1
  let c := position.2
  if move = "S" then (r, c)
  else if move = "L" then (r, c - 1)
  else if move = "R" then (r, c + 1)
  else if move = "U" then (r - 1, c)
  else if move = "D" then (r + 1, c)
  else (r, c)

/-- The test `move in ['L', 'R', 'U', 'D']` of env.py:263. -/
def directional (move : String) : Bool :=
  move = "L" || move = "R" || move = "U" || move = "D"

/-- Environment.valid_position (env.py:344-353). -/
def valid_position (env : Env) (pos : Pos) : Bool :=
  let r := pos.1
  let c := pos.2
  if r < 0 || (env.n_rows : Int) ≤ r || c < 0 || (env.n_cols : Int) ≤ c then
    false
  else if ((env.grid[r.toNat]?).getD [])[c.toNat]?.getD 0 = 1 then
    false
  else
    true

/-- The `old_pos` dict of env.py:199-208: maps a cell to the index of the
robot currently standing there.  Python dict insertion lets the last
write win, hence the search over reversed indices. -/
def old_pos (positions : List Pos) (p : Pos) : Option Nat :=
  ((List.range positions.length).reverse).find? fun i => positions[i]? == some p

/-- The mutable state of the conflict-resolution scan loop of
`Environment.step` (env.py:211-254). -/
structure MoveResolution where
  computed_moved : Nat → Bool
  final_positions : Nat → Option Pos
  occupied : List Pos

/-- The decision of env.py:219-232 for robot `i`: `i` must still be
unresolved, and its proposed cell must be nobody's current cell, or its
own current cell, or the current cell of an already-resolved robot. -/
def can_resolve (positions proposed : List Pos) (st : MoveResolution) (i : Nat) : Bool :=
  !(st.computed_moved i) &&
    (match old_pos positions (pget proposed i) with
     | none => true
     | some j => j == i || st.computed_moved j)

/-- One pass of the scan loop (env.py:217-251): find the first robot, in
index order, that can be decided now. -/
def find_resolvable (positions proposed : List Pos) (st : MoveResolution) : Option Nat :=
  (List.range positions.length).find? (can_resolve positions proposed st)

/-- Resolving one robot (env.py:234-248): the robot claims its proposed
cell if unclaimed, otherwise it is bumped back to (and claims) its
current cell. -/
def resolve_one (positions proposed : List Pos) (st : MoveResolution) (i : Nat) :
    MoveResolution :=
  if pget proposed i ∈ st.occupied then
    { computed_moved := fun k => if k = i then true else st.computed_moved k
      final_positions := fun k => if k = i then some (pget positions i) else st.final_positions k
      occupied := pget positions i :: st.occupied }
  else
    { computed_moved := fun k => if k = i then true else st.computed_moved k
      final_positions := fun k => if k = i then some (pget proposed i) else st.final_positions k
      occupied := pget proposed i :: st.occupied }

/-- The outer `while True` of env.py:215-254: repeat "resolve the first
decidable robot, restart the scan" until a full pass decides nobody.
Each successful pass turns one `computed_moved` flag from false to true,
so `positions.length` iterations always suffice; the fuel argument makes
that bound explicit. -/
def resolve_loop (positions proposed : List Pos) : Nat → MoveResolution → MoveResolution
  | 0, st => st
  | fuel + 1, st =>
    match find_resolvable positions proposed st with
    | none => st
    | some i => resolve_loop positions proposed fuel (resolve_one positions proposed st i)

/-- The initial arrays of env.py:211-214. -/
def init_resolution : MoveResolution :=
  { computed_moved := fun _ => false
    final_positions := fun _ => none
    occupied := [] }

/-- The whole movement-conflict resolution of env.py:211-258, including the
final loop that defaults every still-unresolved robot to its current
cell (env.py:256-258). -/
def resolve_moves (positions proposed : List Pos) : List Pos :=
  let st := resolve_loop positions proposed positions.length init_resolution
  (List.range positions.length).map fun i =>
    match st.final_positions i with
    | some p => p
    | none => pget positions i

/-- The per-robot proposal computation of env.py:196-209: raw target from
the move symbol, collapsed to the current cell when invalid. -/
def proposed_positions (env : Env) (actions : List (String × String)) : List Pos :=
  (actions.zip env.robots).map fun x =>
    let np := compute_new_position x.2.position x.1.1
    if valid_position env np then np else x.2.position

/-- The position-update and movement-cost loop of env.py:260-265, acting on
(action, robot, final position) triples in robot index order. -/
def move_phase (move_cost : Rat) :
    List ((String × String) × Robot × Pos) → List Robot × Rat
  | [] => ([], 0)
  | x :: rest =>
    let tail := move_phase move_cost rest
    let cost : Rat :=
      if directional x.1.1 = true ∧ x.2.2 ≠ x.2.1.position then move_cost else 0
    ({ x.2.1 with position := x.2.2 } :: tail.1, cost + tail.2)

/-- The pickup scan of env.py:275-282: walk the package list in order and
mark the first package that is waiting at the robot's cell with a spawn
time at or before the current tick; return its `package_id` and the
updated list. -/
def pickup_scan (position : Pos) (t : Nat) : List Package → Option (Nat × List Package)
  | [] => none
  | p :: rest =>
    if p.status = Status.waiting ∧ p.start = position ∧ p.start_time ≤ t then
      some (p.package_id, { p with status := Status.in_transit } :: rest)
    else
      match pickup_scan position t rest with
      | some x => some (x.1, p :: x.2)
      | none => none

/-- The pickup action of env.py:272-282: only a robot with empty hands
picks anything up. -/
def do_pickup (t : Nat) (robot : Robot) (packages : List Package) :
    Robot × List Package :=
  if robot.carrying = 0 then
    match pickup_scan robot.position t packages with
    | some x => ({ robot with carrying := x.1 }, x.2)
    | none => (robot, packages)
  else (robot, packages)

/-- The drop action of env.py:284-300.  The source indexes
`self.packages[package_id - 1]` unconditionally, so an id beyond the list
is an exception, embedded as `Except.error`.  On a successful drop the
package becomes delivered, carrying is cleared, and the reward is
`delivery_reward` when the current tick is at most the deadline and
`delay_reward` otherwise. -/
def do_drop (delivery_reward delay_reward : Rat) (t : Nat) (robot : Robot)
    (packages : List Package) : Except String (Robot × List Package × Rat) :=
  if robot.carrying = 0 then
    .ok (robot, packages, 0)
  else
    match packages[robot.carrying - 1]? with
    | none => .error "list index out of range"
    | some pkg =>
      if robot.position = pkg.target then
        .ok ({ robot with carrying := 0 },
          packages.set (robot.carrying - 1) { pkg with status := Status.delivered },
          if t ≤ pkg.deadline then delivery_reward else delay_reward)
      else
        .ok (robot, packages, 0)

/-- The package-action loop of env.py:267-300: one pass over the robots in
index order, each robot doing its pickup (`"1"`) or drop (`"2"`) against
the package list as left by the previous robots. -/
def package_phase (delivery_reward delay_reward : Rat) (t : Nat) :
    List ((String × String) × Robot) → List Package →
    Except String (List Robot × List Package × Rat)
  | [], packages => .ok ([], packages, 0)
  | x :: rest, packages =>
    match (if x.1.2 = "1" then
            .ok ((do_pickup t x.2 packages).1, (do_pickup t x.2 packages).2, (0 : Rat))
          else if x.1.2 = "2" then
            do_drop delivery_reward delay_reward t x.2 packages
          else
            .ok (x.2, packages, (0 : Rat)) : Except String (Robot × List Package × Rat)) with
    | .error e => .error e
    | .ok y =>
      match package_phase delivery_reward delay_reward t rest y.2.1 with
      | .error e => .error e
      | .ok z => .ok (y.1 :: z.1, z.2.1, y.2.2 + z.2.2)

/-- Environment.check_terminate (env.py:316-324). -/
def check_terminate (env : Env) : Bool :=
  if env.t = env.max_time_steps then true
  else env.packages.all fun p => p.status = Status.delivered

/-- The robot tuple of the snapshot (env.py:150-151), 1-based coordinates. -/
def render_robot (rb : Robot) : Int × Int × Nat :=
  (rb.position.1 + 1, rb.position.2 + 1, rb.carrying)

/-- The package tuple of the snapshot (env.py:152-153), 1-based coordinates. -/
def render_package (p : Package) : Nat × Int × Int × Int × Int × Nat × Nat :=
  (p.package_id, p.start.1 + 1, p.start.2 + 1, p.target.1 + 1, p.target.2 + 1,
    p.start_time, p.deadline)

/-- The snapshot dict of env.py:147-154. -/
structure StateSnapshot where
  time_step : Nat
  map : List (List Nat)
  robots : List (Int × Int × Nat)
  packages : List (Nat × Int × Int × Int × Int × Nat × Nat)
  deriving Repr

/-- Environment.get_state (env.py:135-155).  It both reveals (sets to
waiting) every package whose `start_time` equals the current tick and
returns the snapshot listing exactly those packages, so it is embedded as
returning the mutated environment together with the snapshot. -/
def get_state (env : Env) : Env × StateSnapshot :=
  let selected := env.packages.filter fun p => p.start_time == env.t
  let updated := env.packages.map fun p =>
    if p.start_time = env.t then { p with status := Status.waiting } else p
  ({ env with packages := updated },
   { time_step := env.t
     map := env.grid
     robots := env.robots.map render_robot
     packages := selected.map render_package })

/-- Environment.step (env.py:181-314): validate the action vector, resolve
movement, charge movement costs, run the package pass, advance the tick,
accumulate the reward, evaluate termination, and build the snapshot.  The
returned tuple carries the snapshot, the step reward, the done flag, the
info payload (`none` embeds the empty dict) and the post-step
environment. -/
def step (env : Env) (actions : List (String × String)) :
    Except String (StateSnapshot × Rat × Bool × Option (Rat × Nat) × Env) :=
  if actions.length ≠ env.robots.length then
    .error "The number of actions must match the number of robots."
  else
    let positions := env.robots.map fun rb => rb.position
    let proposed := proposed_positions env actions
    let finals := resolve_moves positions proposed
    let moved := move_phase env.move_cost (actions.zip (env.robots.zip finals))
    match package_phase env.delivery_reward env.delay_reward env.t
        (actions.zip moved.1) env.packages with
    | .error e => .error e
    | .ok y =>
      let r := moved.2 + y.2.2
      let env1 : Env :=
        { env with
          robots := y.1
          packages := y.2.1
          t := env.t + 1
          total_reward := env.total_reward + r }
      let done := check_terminate env1
      let infos : Option (Rat × Nat) :=
        if done then some (env1.total_reward, env1.t) else none
      let revealed := get_state env1
      .ok (revealed.2, r, done, infos, revealed.1)

/-- Spawn-time assignment for the package generated at 0-based index `i`
during `Environment.reset` (env.py:121-124): index at most
`min(n_robots, 20)` gets spawn time 0, every other index draws
`randint(1, max_time_steps)`, i.e. a uniform integer of the half-open
numpy range `[1, max_time_steps)`, embedded as `1 + draw % (T - 1)` for
an arbitrary draw. -/
def reset_spawn_time (n_robots max_time_steps : Nat) (draw : Nat) (i : Nat) : Nat :=
  if i ≤ min n_robots 20 then 0 else 1 + draw % (max_time_steps - 1)

/-- Rank of a status in the lifecycle order
Pending < Waiting < InTransit < Delivered. -/
def status_rank : Status → Nat
  | Status.pending => 0
  | Status.waiting => 1
  | Status.in_transit => 2
  | Status.delivered => 3

/-- The lifecycle order on statuses. -/
def status_le (a b : Status) : Prop :=
  status_rank a ≤ status_rank b

/-- State invariant maintained by reset and step: every package that left
`pending` has spawned already; package ids are dense (`id = index + 1`,
as assigned by env.py:128-131); and every nonzero `carrying` field points
at an existing package that is in transit or delivered. -/
def carry_ok (packages : List Package) (rb : Robot) : Prop :=
  rb.carrying ≠ 0 → ∃ pkg, packages[rb.carrying - 1]? = some pkg ∧
    (pkg.status = Status.in_transit ∨ pkg.status = Status.delivered)

structure EnvInv (env : Env) : Prop where
  spawn_le : ∀ p ∈ env.packages, p.status ≠ Status.pending → p.start_time ≤ env.t
  ids : ∀ j pkg, env.packages[j]? = some pkg → pkg.package_id = j + 1
  carry : ∀ rb ∈ env.robots, carry_ok env.packages rb

/-- Relation between the package list before and after one mutation of the
package pass (or of the reveal step): lengths agree, statuses only move
up the lifecycle order, dense ids and the spawn-time bound are preserved,
and a package once in transit or delivered stays in that set. -/
structure PhaseOk (t : Nat) (packages packages1 : List Package) : Prop where
  len : packages1.length = packages.length
  mono : ∀ (j : Nat) (pkg pkg1 : Package), packages[j]? = some pkg →
    packages1[j]? = some pkg1 → status_le pkg.status pkg1.status
  ids : (∀ (j : Nat) (pkg : Package), packages[j]? = some pkg → pkg.package_id = j + 1) →
    ∀ (j : Nat) (pkg1 : Package), packages1[j]? = some pkg1 → pkg1.package_id = j + 1
  spawn : (∀ p ∈ packages, p.status ≠ Status.pending → p.start_time ≤ t) →
    ∀ p ∈ packages1, p.status ≠ Status.pending → p.start_time ≤ t
  keep : ∀ (j : Nat) (pkg pkg1 : Package), packages[j]? = some pkg →
    packages1[j]? = some pkg1 →
    (pkg.status = Status.in_transit ∨ pkg.status = Status.delivered) →
    pkg1.status = Status.in_transit ∨ pkg1.status = Status.delivered

/-- Shape of the state built by `Environment.reset` (env.py:89-133) just
before its final `get_state` call: tick 0, all packages `'None'`
(env.py:19), dense ids (env.py:128-131), all robots empty-handed
(env.py:10). -/
def fresh (env : Env) : Prop :=
  env.t = 0 ∧
  (∀ p ∈ env.packages, p.status = Status.pending) ∧
  (∀ j pkg, env.packages[j]? = some pkg → pkg.package_id = j + 1) ∧
  (∀ rb ∈ env.robots, rb.carrying = 0)

/-- Invariant of the conflict-resolution scan loop: resolved robots are
exactly those with a recorded final position; every recorded final
position has been claimed in `occupied`; the current cell of an
unresolved robot is never claimed; and no two robots record the same
final position. -/
structure ResolveInv (positions : List Pos) (st : MoveResolution) : Prop where
  comp_iff : ∀ i, st.computed_moved i = true ↔ (st.final_positions i).isSome
  final_mem : ∀ i p, st.final_positions i = some p → p ∈ st.occupied
  free_pos : ∀ i, i < positions.length → st.computed_moved i = false →
    pget positions i ∉ st.occupied
  final_inj : ∀ i j p, i ≠ j → st.final_positions i = some p →
    st.final_positions j = some p → False

/-- The states produced by a reset followed by any sequence of successful
step calls.  `Environment.reset` ends by calling `get_state`, hence the
base case. -/
inductive Reachable : Env → Prop where
  | reset_case (env0 : Env) (h : fresh env0) : Reachable (get_state env0).1
  | step_case (env : Env) (actions : List (String × String))
      (snap : StateSnapshot) (r : Rat) (done : Bool) (infos : Option (Rat × Nat))
      (env' : Env) (h : Reachable env)
      (hok : step env actions = .ok (snap, r, done, infos, env')) :
      Reachable env'

/-- A small concrete environment (a free 1-by-3 row, one robot at the
origin, no packages) used to instantiate theorems with hypotheses. -/
def sample_env : Env where
  grid := [[0, 0, 0]]
  n_rows := 1
  n_cols := 3
  move_cost := 0
  delivery_reward := 0
  delay_reward := 0
  t := 0
  robots := [{ position := (0, 0), carrying := 0 }]
  packages := []
  total_reward := 0
  max_time_steps := 10

/-- A concrete in-transit package used to instantiate the drop theorems. -/
def sample_pkg : Package where
  start := (0, 1)
  start_time := 0
  target := (0, 0)
  deadline := 5
  package_id := 1
  status := Status.in_transit

/-! ## Basic lemmas about indexing and `old_pos` -/

theorem nodup_getElem?_inj (l : List Pos) (h : l.Nodup) {i j : Nat} {a : Pos}
    (hi : l[i]? = some a) (hj : l[j]? = some a) : i = j := by
  have h1 : i < l.length := by
    by_contra hc
    rw [List.getElem?_eq_none (by omega)] at hi
    exact Option.noConfusion hi
  have h2 : j < l.length := by
    by_contra hc
    rw [List.getElem?_eq_none (by omega)] at hj
    exact Option.noConfusion hj
  rw [List.getElem?_eq_getElem h1] at hi
  rw [List.getElem?_eq_getElem h2] at hj
  have hg : l.get ⟨i, h1⟩ = l.get ⟨j, h2⟩ := by
    simp only [List.get_eq_getElem]
    rw [Option.some_inj.mp hi, Option.some_inj.mp hj]
  exact congrArg Fin.val ((List.Nodup.get_inj_iff h).mp hg)

theorem getElem?_eq_some_pget (l : List Pos) (i : Nat) (h : i < l.length) :
    l[i]? = some (pget l i) := by
  simp [pget, List.getElem?_eq_getElem h]

theorem pget_inj (l : List Pos) (hnd : l.Nodup) {i j : Nat}
    (hi : i < l.length) (hj : j < l.length) (he : pget l i = pget l j) : i = j := by
  apply nodup_getElem?_inj l hnd (getElem?_eq_some_pget l i hi)
  rw [he]
  exact getElem?_eq_some_pget l j hj

theorem old_pos_eq_none_iff (positions : List Pos) (p : Pos) :
    old_pos positions p = none ↔ p ∉ positions := by
  unfold old_pos
  rw [List.find?_eq_none]
  constructor
  · intro h hmem
    rcases List.mem_iff_getElem?.mp hmem with ⟨i, hi⟩
    have hilt : i < positions.length := by
      by_contra hc
      rw [List.getElem?_eq_none (by omega)] at hi
      exact Option.noConfusion hi
    have := h i (by rw [List.mem_reverse, List.mem_range]; omega)
    simp [hi] at this
  · intro h i _
    simp only [beq_iff_eq]
    intro hc
    exact h (List.mem_iff_getElem?.mpr ⟨i, hc⟩)

theorem old_pos_getElem? (positions : List Pos) (p : Pos) (j : Nat)
    (h : old_pos positions p = some j) : positions[j]? = some p := by
  have := List.find?_some h
  simpa [beq_iff_eq] using this

theorem old_pos_of_nodup (positions : List Pos) (hnd : positions.Nodup) (j : Nat) (p : Pos)
    (h : positions[j]? = some p) : old_pos positions p = some j := by
  cases hop : old_pos positions p with
  | none =>
    rw [old_pos_eq_none_iff] at hop
    exact absurd (List.mem_iff_getElem?.mpr ⟨j, h⟩) hop
  | some j1 =>
    have hj1 := old_pos_getElem? positions p j1 hop
    rw [nodup_getElem?_inj positions hnd hj1 h]

/-! ## The conflict-resolution invariant -/

theorem can_resolve_iff (positions proposed : List Pos) (st : MoveResolution) (i : Nat) :
    can_resolve positions proposed st i = true ↔
      st.computed_moved i = false ∧
      ∀ j, old_pos positions (pget proposed i) = some j →
        j = i ∨ st.computed_moved j = true := by
  unfold can_resolve
  cases hop : old_pos positions (pget proposed i) with
  | none => simp
  | some j => simp [Bool.or_eq_true]

theorem init_resolution_inv (positions : List Pos) :
    ResolveInv positions init_resolution := by
  constructor <;> simp [init_resolution]

theorem can_resolve_not_current (positions proposed : List Pos) (hnd : positions.Nodup)
    (st : MoveResolution) (i : Nat)
    (hcan : can_resolve positions proposed st i = true)
    (k : Nat) (hk : k < positions.length) (hki : k ≠ i)
    (hcmk : st.computed_moved k = false) :
    pget positions k ≠ pget proposed i := by
  intro he
  have hkg : positions[k]? = some (pget proposed i) := by
    rw [getElem?_eq_some_pget positions k hk, he]
  have hop := old_pos_of_nodup positions hnd k _ hkg
  rcases ((can_resolve_iff positions proposed st i).mp hcan).2 k hop with h | h
  · exact hki h
  · rw [hcmk] at h
    exact Bool.noConfusion h

theorem resolve_update_inv (positions : List Pos) (st : MoveResolution)
    (inv : ResolveInv positions st) (i : Nat)
    (hfpi : st.final_positions i = none)
    (f : Pos) (hfnot : f ∉ st.occupied)
    (hother : ∀ k, k < positions.length → k ≠ i → st.computed_moved k = false →
      pget positions k ≠ f) :
    ResolveInv positions
      { computed_moved := fun k => if k = i then true else st.computed_moved k
        final_positions := fun k => if k = i then some f else st.final_positions k
        occupied := f :: st.occupied } := by
  constructor
  · intro k
    by_cases hk : k = i <;> simp [hk, inv.comp_iff k]
  · intro k p hp
    simp only at hp
    by_cases hk : k = i
    · rw [if_pos hk] at hp
      rw [← Option.some_inj.mp hp]
      exact List.mem_cons_self _ _
    · rw [if_neg hk] at hp
      exact List.mem_cons_of_mem _ (inv.final_mem k p hp)
  · intro k hklt hcmk
    simp only at hcmk ⊢
    by_cases hk : k = i
    · rw [if_pos hk] at hcmk
      exact Bool.noConfusion hcmk
    · rw [if_neg hk] at hcmk
      simp only [List.mem_cons, not_or]
      exact ⟨hother k hklt hk hcmk, inv.free_pos k hklt hcmk⟩
  · intro k l p hkl hfk hfl
    simp only at hfk hfl
    by_cases hk : k = i
    · subst hk
      rw [if_pos rfl] at hfk
      rw [if_neg (Ne.symm hkl)] at hfl
      exact hfnot ((Option.some_inj.mp hfk) ▸ inv.final_mem l p hfl)
    · rw [if_neg hk] at hfk
      by_cases hl : l = i
      · subst hl
        rw [if_pos rfl] at hfl
        exact hfnot ((Option.some_inj.mp hfl) ▸ inv.final_mem k p hfk)
      · rw [if_neg hl] at hfl
        exact inv.final_inj k l p hkl hfk hfl

theorem resolve_one_inv (positions proposed : List Pos) (hnd : positions.Nodup)
    (st : MoveResolution) (inv : ResolveInv positions st) (i : Nat)
    (hi : i < positions.length)
    (hcan : can_resolve positions proposed st i = true) :
    ResolveInv positions (resolve_one positions proposed st i) := by
  have hcmi : st.computed_moved i = false :=
    ((can_resolve_iff positions proposed st i).mp hcan).1
  have hfree : pget positions i ∉ st.occupied := inv.free_pos i hi hcmi
  have hfpi : st.final_positions i = none := by
    rcases hv : st.final_positions i with _ | p
    · rfl
    · exfalso
      have hc : st.computed_moved i = true := (inv.comp_iff i).mpr (by rw [hv]; rfl)
      rw [hcmi] at hc
      exact Bool.noConfusion hc
  unfold resolve_one
  by_cases hocc : pget proposed i ∈ st.occupied
  · rw [if_pos hocc]
    exact resolve_update_inv positions st inv i hfpi (pget positions i) hfree
      (fun k hklt hk _ he => hk (pget_inj positions hnd hklt hi he))
  · rw [if_neg hocc]
    exact resolve_update_inv positions st inv i hfpi (pget proposed i) hocc
      (fun k hklt hk hcmk =>
        can_resolve_not_current positions proposed hnd st i hcan k hklt hk hcmk)

theorem resolve_loop_inv (positions proposed : List Pos) (hnd : positions.Nodup)
    (fuel : Nat) (st : MoveResolution) (inv : ResolveInv positions st) :
    ResolveInv positions (resolve_loop positions proposed fuel st) := by
  induction fuel generalizing st with
  | zero => exact inv
  | succ fuel ih =>
    unfold resolve_loop
    cases hfind : find_resolvable positions proposed st with
    | none => exact inv
    | some i =>
      unfold find_resolvable at hfind
      have hmem := List.mem_of_find?_eq_some hfind
      rw [List.mem_range] at hmem
      have hcan := List.find?_some hfind
      exact ih _ (resolve_one_inv positions proposed hnd st inv i hmem hcan)

theorem computed_false_of_final_none (positions : List Pos) (st : MoveResolution)
    (inv : ResolveInv positions st) (i : Nat) (h : st.final_positions i = none) :
    st.computed_moved i = false := by
  rcases Bool.eq_false_or_eq_true (st.computed_moved i) with hb | hb
  · exfalso
    have hs := (inv.comp_iff i).mp hb
    rw [h] at hs
    exact Bool.noConfusion hs
  · exact hb

/-- C1: over any grid, for robots at pairwise-distinct current cells and an
action vector of matching length, the final positions computed by the
movement-conflict resolution of `Environment.step` (env.py:211-258) are
pairwise distinct, robots left unresolved by the scan loop (which default
to their current cells) included. -/
theorem resolver_no_double_occupancy (positions proposed : List Pos)
    (hnd : positions.Nodup) (hlen : proposed.length = positions.length) :
    (resolve_moves positions proposed).Nodup := by
  unfold resolve_moves
  have inv : ResolveInv positions
      (resolve_loop positions proposed positions.length init_resolution) :=
    resolve_loop_inv positions proposed hnd positions.length init_resolution
      (init_resolution_inv positions)
  set st := resolve_loop positions proposed positions.length init_resolution with hst
  apply List.Nodup.map_on _ (List.nodup_range _)
  intro i hi j hj he
  rw [List.mem_range] at hi hj
  by_contra hij
  cases hfi : st.final_positions i with
  | some p =>
    cases hfj : st.final_positions j with
    | some q =>
      rw [hfi, hfj] at he
      simp only at he
      exact inv.final_inj i j p hij hfi (by rw [hfj, he])
    | none =>
      rw [hfi, hfj] at he
      simp only at he
      have hcmj := computed_false_of_final_none positions st inv j hfj
      exact inv.free_pos j hj hcmj (he ▸ inv.final_mem i p hfi)
  | none =>
    have hcmi := computed_false_of_final_none positions st inv i hfi
    cases hfj : st.final_positions j with
    | some q =>
      rw [hfi, hfj] at he
      simp only at he
      exact inv.free_pos i hi hcmi (he ▸ inv.final_mem j q hfj)
    | none =>
      rw [hfi, hfj] at he
      simp only at he
      exact hij (pget_inj positions hnd hi hj he)

theorem resolve_one_other_cm (positions proposed : List Pos) (st : MoveResolution)
    (i k : Nat) (hk : ¬ k = i) :
    (resolve_one positions proposed st i).computed_moved k = st.computed_moved k := by
  unfold resolve_one
  by_cases hocc : pget proposed i ∈ st.occupied
  · rw [if_pos hocc]
    simp only
    rw [if_neg hk]
  · rw [if_neg hocc]
    simp only
    rw [if_neg hk]

theorem resolve_one_other_fp (positions proposed : List Pos) (st : MoveResolution)
    (i k : Nat) (hk : ¬ k = i) :
    (resolve_one positions proposed st i).final_positions k = st.final_positions k := by
  unfold resolve_one
  by_cases hocc : pget proposed i ∈ st.occupied
  · rw [if_pos hocc]
    simp only
    rw [if_neg hk]
  · rw [if_neg hocc]
    simp only
    rw [if_neg hk]

theorem no_swap_loop (positions proposed : List Pos) (hnd : positions.Nodup)
    (a b : Nat) (ha : a < positions.length) (hb : b < positions.length) (hab : a ≠ b)
    (hpa : pget proposed a = pget positions b)
    (hpb : pget proposed b = pget positions a)
    (fuel : Nat) (st : MoveResolution)
    (hca : st.computed_moved a = false) (hcb : st.computed_moved b = false)
    (hfa : st.final_positions a = none) (hfb : st.final_positions b = none) :
    (resolve_loop positions proposed fuel st).final_positions a = none ∧
    (resolve_loop positions proposed fuel st).final_positions b = none := by
  induction fuel generalizing st with
  | zero => exact ⟨hfa, hfb⟩
  | succ fuel ih =>
    unfold resolve_loop
    cases hfind : find_resolvable positions proposed st with
    | none => exact ⟨hfa, hfb⟩
    | some i =>
      unfold find_resolvable at hfind
      have hcan := List.find?_some hfind
      have hia : i ≠ a := by
        intro hesub
        subst hesub
        have hop : old_pos positions (pget proposed i) = some b := by
          rw [hpa]
          exact old_pos_of_nodup positions hnd b _ (getElem?_eq_some_pget positions b hb)
        rcases ((can_resolve_iff positions proposed st i).mp hcan).2 b hop with h | h
        · exact hab h.symm
        · rw [hcb] at h
          exact Bool.noConfusion h
      have hib : i ≠ b := by
        intro hesub
        subst hesub
        have hop : old_pos positions (pget proposed i) = some a := by
          rw [hpb]
          exact old_pos_of_nodup positions hnd a _ (getElem?_eq_some_pget positions a ha)
        rcases ((can_resolve_iff positions proposed st i).mp hcan).2 a hop with h | h
        · exact hab h
        · rw [hca] at h
          exact Bool.noConfusion h
      apply ih
      · rw [resolve_one_other_cm positions proposed st i a (fun h => hia h.symm)]
        exact hca
      · rw [resolve_one_other_cm positions proposed st i b (fun h => hib h.symm)]
        exact hcb
      · rw [resolve_one_other_fp positions proposed st i a (fun h => hia h.symm)]
        exact hfa
      · rw [resolve_one_other_fp positions proposed st i b (fun h => hib h.symm)]
        exact hfb

/-- C2: when robot `a` proposes robot `b`'s current cell and robot `b`
proposes robot `a`'s current cell, the scan loop of `Environment.step`
never resolves either of them (nothing any other robot does can break the
two-cycle), so both default to their original cells (env.py:215-258). -/
theorem resolver_no_swap (positions proposed : List Pos) (hnd : positions.Nodup)
    (a b : Nat) (ha : a < positions.length) (hb : b < positions.length) (hab : a ≠ b)
    (hpa : pget proposed a = pget positions b)
    (hpb : pget proposed b = pget positions a) :
    pget (resolve_moves positions proposed) a = pget positions a ∧
    pget (resolve_moves positions proposed) b = pget positions b := by
  obtain ⟨hfa, hfb⟩ := no_swap_loop positions proposed hnd a b ha hb hab hpa hpb
    positions.length init_resolution rfl rfl rfl rfl
  unfold resolve_moves
  constructor
  · rw [pget, List.getElem?_map, List.getElem?_range ha]
    simp [hfa]
  · rw [pget, List.getElem?_map, List.getElem?_range hb]
    simp [hfb]

/-- C1 witness: two robots racing for the middle cell of the sample row
still end on distinct cells. -/
theorem resolver_no_double_occupancy_witness :
    (resolve_moves [((0 : Int), (0 : Int)), ((0 : Int), (2 : Int))]
      [((0 : Int), (1 : Int)), ((0 : Int), (1 : Int))]).Nodup :=
  resolver_no_double_occupancy
    [((0 : Int), (0 : Int)), ((0 : Int), (2 : Int))]
    [((0 : Int), (1 : Int)), ((0 : Int), (1 : Int))]
    (by decide) (by decide)

/-- C2 witness: two adjacent robots proposing each other's cells both stay
in place. -/
theorem resolver_no_swap_witness :
    pget (resolve_moves [((0 : Int), (0 : Int)), ((0 : Int), (1 : Int))]
      [((0 : Int), (1 : Int)), ((0 : Int), (0 : Int))]) 0 =
      pget [((0 : Int), (0 : Int)), ((0 : Int), (1 : Int))] 0 ∧
    pget (resolve_moves [((0 : Int), (0 : Int)), ((0 : Int), (1 : Int))]
      [((0 : Int), (1 : Int)), ((0 : Int), (0 : Int))]) 1 =
      pget [((0 : Int), (0 : Int)), ((0 : Int), (1 : Int))] 1 :=
  resolver_no_swap
    [((0 : Int), (0 : Int)), ((0 : Int), (1 : Int))]
    [((0 : Int), (1 : Int)), ((0 : Int), (0 : Int))]
    (by decide) 0 1 (by decide) (by decide) (by decide) (by decide) (by decide)

/-- C3 counterexample: with one robot, the package generated at index 1 is
not among the first `min(R, 20) = 1` generation indices, yet the
assignment of env.py:121-124 still gives it spawn time 0 (the source
comparison is `i <= min(n_robots, 20)` over 0-based `i`, one more index
than the claim's "first `min(R, 20)` packages"). -/
theorem reset_spawn_time_counterexample :
    reset_spawn_time 1 100 0 1 = 0 ∧ ¬ (1 < min 1 20) := by
  constructor
  · rfl
  · decide

/-- C3, amended: the packages receiving spawn time 0 are exactly those with
generation index at most `min(R, 20)` (that is, the first
`min(R, 20) + 1` of them), and every other package receives a spawn time
between 1 and `T - 1` inclusive. -/
theorem reset_spawn_time_spec (R T d i : Nat) (hT : 2 ≤ T) :
    (reset_spawn_time R T d i = 0 ↔ i ≤ min R 20) ∧
    (min R 20 < i →
      1 ≤ reset_spawn_time R T d i ∧ reset_spawn_time R T d i ≤ T - 1) := by
  unfold reset_spawn_time
  by_cases hi : i ≤ min R 20
  · rw [if_pos hi]
    exact ⟨by simp [hi], fun hlt => absurd hi (by omega)⟩
  · rw [if_neg hi]
    have hm : d % (T - 1) < T - 1 := Nat.mod_lt _ (by omega)
    exact ⟨by constructor <;> intro h <;> omega, fun _ => by omega⟩

/-- C3 witness for the amended statement, at robot count 1, horizon 100,
draw 7, generation index 5. -/
theorem reset_spawn_time_spec_witness :
    (reset_spawn_time 1 100 7 5 = 0 ↔ 5 ≤ min 1 20) ∧
    (min 1 20 < 5 →
      1 ≤ reset_spawn_time 1 100 7 5 ∧ reset_spawn_time 1 100 7 5 ≤ 100 - 1) :=
  reset_spawn_time_spec 1 100 7 5 (by decide)

/-- C4: a robot carrying package `pkg` that issues a drop while standing on
`pkg.target` at tick `t` delivers it: the package becomes delivered,
carrying is cleared, and the credited reward is exactly
`delivery_reward` when `t ≤ deadline` and exactly `delay_reward`
otherwise (env.py:284-300). -/
theorem drop_reward_rule (delivery_reward delay_reward : Rat) (t : Nat)
    (robot : Robot) (packages : List Package) (pkg : Package)
    (hc : robot.carrying ≠ 0)
    (hp : packages[robot.carrying - 1]? = some pkg)
    (ht : robot.position = pkg.target) :
    do_drop delivery_reward delay_reward t robot packages =
      .ok ({ robot with carrying := 0 },
        packages.set (robot.carrying - 1) { pkg with status := Status.delivered },
        if t ≤ pkg.deadline then delivery_reward else delay_reward) := by
  unfold do_drop
  rw [if_neg hc, hp]
  simp only [if_pos ht]

/-- C4 witness: a delivery on the sample package at tick 3 (its deadline
is 5) credits the on-time reward. -/
theorem drop_reward_rule_witness :
    do_drop 10 1 3 { position := ((0 : Int), (0 : Int)), carrying := 1 } [sample_pkg] =
      .ok ({ position := ((0 : Int), (0 : Int)), carrying := 0 },
        [{ sample_pkg with status := Status.delivered }],
        if 3 ≤ sample_pkg.deadline then 10 else 1) :=
  drop_reward_rule 10 1 3 { position := ((0 : Int), (0 : Int)), carrying := 1 }
    [sample_pkg] sample_pkg (by decide) rfl rfl

/-- C9: a step call whose action vector length differs from the robot count
fails with the source's ValueError (env.py:189-191) before any part of
the state is touched; in this embedding the error is returned in place
of any successor state. -/
theorem step_rejects_length_mismatch (env : Env) (actions : List (String × String))
    (h : actions.length ≠ env.robots.length) :
    step env actions =
      .error "The number of actions must match the number of robots." := by
  unfold step
  rw [if_pos h]

/-- C9 witness: the empty action vector against the one-robot sample
environment. -/
theorem step_rejects_length_mismatch_witness :
    step sample_env [] =
      .error "The number of actions must match the number of robots." :=
  step_rejects_length_mismatch sample_env [] (by decide)

/-- C8: the snapshot built by `Environment.get_state` (env.py:135-155)
lists exactly the packages whose spawn time equals the current tick
(each rendered tuple even carries that spawn time in its sixth
component), and always lists every robot. -/
theorem snapshot_progressive_reveal (env : Env) :
    (∀ q, q ∈ (get_state env).2.packages ↔
      ∃ p, p ∈ env.packages ∧ p.start_time = env.t ∧ q = render_package p) ∧
    (∀ q, q ∈ (get_state env).2.packages → q.2.2.2.2.2.1 = env.t) ∧
    (get_state env).2.robots = env.robots.map render_robot := by
  have hmem : ∀ q, q ∈ (get_state env).2.packages ↔
      ∃ p, p ∈ env.packages ∧ p.start_time = env.t ∧ q = render_package p := by
    intro q
    unfold get_state
    simp only [List.mem_map, List.mem_filter, beq_iff_eq]
    constructor
    · rintro ⟨p, ⟨hp, hst⟩, rfl⟩
      exact ⟨p, hp, hst, rfl⟩
    · rintro ⟨p, hp, hst, rfl⟩
      exact ⟨p, ⟨hp, hst⟩, rfl⟩
  refine ⟨hmem, ?_, rfl⟩
  intro q hq
  rcases (hmem q).mp hq with ⟨p, _, hst, rfl⟩
  exact hst

/-! ## Lifecycle order and package-pass lemmas -/

theorem status_le_rfl (s : Status) : status_le s s :=
  Nat.le_refl _

theorem status_le_trans {a b c : Status} (h1 : status_le a b) (h2 : status_le b c) :
    status_le a c :=
  Nat.le_trans h1 h2

theorem status_le_delivered (s : Status) : status_le s Status.delivered := by
  cases s <;> simp [status_le, status_rank]

theorem delivered_of_status_le {s : Status} (h : status_le Status.delivered s) :
    s = Status.delivered := by
  cases s <;> simp [status_le, status_rank] at h ⊢

theorem lt_length_of_getElem? {α : Type} {l : List α} {j : Nat} {a : α}
    (h : l[j]? = some a) : j < l.length := by
  by_contra hc
  rw [List.getElem?_eq_none (by omega)] at h
  exact Option.noConfusion h

theorem exists_getElem?_of_lt {α : Type} (l : List α) (j : Nat) (h : j < l.length) :
    ∃ x, l[j]? = some x :=
  ⟨l[j], List.getElem?_eq_getElem h⟩

theorem phase_ok_rfl (t : Nat) (packages : List Package) : PhaseOk t packages packages := by
  constructor
  · rfl
  · intro j pkg pkg1 h1 h2
    rw [h1] at h2
    rw [← Option.some_inj.mp h2]
    exact status_le_rfl _
  · exact fun h => h
  · exact fun h => h
  · intro j pkg pkg1 h1 h2 hall
    rw [h1] at h2
    rw [← Option.some_inj.mp h2]
    exact hall

theorem phase_ok_trans {t : Nat} {p q r : List Package}
    (h1 : PhaseOk t p q) (h2 : PhaseOk t q r) : PhaseOk t p r := by
  constructor
  · exact h2.len.trans h1.len
  · intro j pkg pkg1 hp hr
    obtain ⟨pkgm, hm⟩ := exists_getElem?_of_lt q j (h1.len ▸ lt_length_of_getElem? hp)
    exact status_le_trans (h1.mono j pkg pkgm hp hm) (h2.mono j pkgm pkg1 hm hr)
  · exact fun h => h2.ids (h1.ids h)
  · exact fun h => h2.spawn (h1.spawn h)
  · intro j pkg pkg1 hp hr hall
    obtain ⟨pkgm, hm⟩ := exists_getElem?_of_lt q j (h1.len ▸ lt_length_of_getElem? hp)
    exact h2.keep j pkgm pkg1 hm hr (h1.keep j pkg pkgm hp hm hall)

theorem phase_ok_set (t : Nat) (packages : List Package) (j : Nat) (pkg new_pkg : Package)
    (hj : packages[j]? = some pkg)
    (hid : new_pkg.package_id = pkg.package_id)
    (hst : status_le pkg.status new_pkg.status)
    (hkeep : new_pkg.status = Status.in_transit ∨ new_pkg.status = Status.delivered)
    (hstart : new_pkg.start_time = pkg.start_time)
    (hnp : pkg.status ≠ Status.pending) :
    PhaseOk t packages (packages.set j new_pkg) := by
  have hjl : j < packages.length := lt_length_of_getElem? hj
  constructor
  · exact List.length_set packages j new_pkg
  · intro k pkga pkgb hk hk1
    by_cases hkj : j = k
    · subst hkj
      rw [hj] at hk
      rw [List.getElem?_set_eq hjl] at hk1
      rw [← Option.some_inj.mp hk, ← Option.some_inj.mp hk1]
      exact hst
    · rw [List.getElem?_set_ne hkj, hk] at hk1
      rw [← Option.some_inj.mp hk1]
      exact status_le_rfl _
  · intro hids k pkgb hk1
    by_cases hkj : j = k
    · subst hkj
      rw [List.getElem?_set_eq hjl] at hk1
      rw [← Option.some_inj.mp hk1, hid]
      exact hids j pkg hj
    · rw [List.getElem?_set_ne hkj] at hk1
      exact hids k pkgb hk1
  · intro hsp p hp hnp1
    rcases List.mem_or_eq_of_mem_set hp with hp | hp
    · exact hsp p hp hnp1
    · subst hp
      rw [hstart]
      exact hsp pkg (List.mem_iff_getElem?.mpr ⟨j, hj⟩) hnp
  · intro k pkga pkgb hk hk1 hall
    by_cases hkj : j = k
    · subst hkj
      rw [List.getElem?_set_eq hjl] at hk1
      rw [← Option.some_inj.mp hk1]
      exact hkeep
    · rw [List.getElem?_set_ne hkj, hk] at hk1
      rw [← Option.some_inj.mp hk1]
      exact hall

theorem carry_ok_of_phase {t : Nat} {packages packages1 : List Package} {rb : Robot}
    (h : PhaseOk t packages packages1) (hc : carry_ok packages rb) :
    carry_ok packages1 rb := by
  intro hne
  obtain ⟨pkg, hp, hall⟩ := hc hne
  obtain ⟨pkg1, hp1⟩ :=
    exists_getElem?_of_lt packages1 _ (h.len ▸ lt_length_of_getElem? hp)
  exact ⟨pkg1, hp1, h.keep _ pkg pkg1 hp hp1 hall⟩

theorem pickup_scan_some (position : Pos) (t : Nat) (packages : List Package)
    (pid : Nat) (packages1 : List Package)
    (h : pickup_scan position t packages = some (pid, packages1)) :
    ∃ j pkg, packages[j]? = some pkg ∧ pkg.status = Status.waiting ∧
      pkg.start = position ∧ pkg.start_time ≤ t ∧ pid = pkg.package_id ∧
      packages1 = packages.set j { pkg with status := Status.in_transit } := by
  induction packages generalizing pid packages1 with
  | nil => exact Option.noConfusion h
  | cons p rest ih =>
    unfold pickup_scan at h
    by_cases hc : p.status = Status.waiting ∧ p.start = position ∧ p.start_time ≤ t
    · rw [if_pos hc] at h
      simp only [Option.some.injEq, Prod.mk.injEq] at h
      exact ⟨0, p, by simp, hc.1, hc.2.1, hc.2.2, h.1.symm, h.2.symm⟩
    · rw [if_neg hc] at h
      cases hscan : pickup_scan position t rest with
      | none =>
        rw [hscan] at h
        exact Option.noConfusion h
      | some x =>
        rw [hscan] at h
        simp only [Option.some.injEq, Prod.mk.injEq] at h
        obtain ⟨j, pkg, h1, h2, h3, h4, h5, h6⟩ := ih x.1 x.2 (by rw [hscan])
        refine ⟨j + 1, pkg, by simpa using h1, h2, h3, h4, by rw [← h.1, h5], ?_⟩
        rw [← h.2, h6]
        rfl

theorem do_pickup_spec (t : Nat) (robot : Robot) (packages : List Package)
    (hids : ∀ (j : Nat) (pkg : Package), packages[j]? = some pkg → pkg.package_id = j + 1)
    (hco : carry_ok packages robot) :
    ∃ robot1 packages1, do_pickup t robot packages = (robot1, packages1) ∧
      PhaseOk t packages packages1 ∧ carry_ok packages1 robot1 := by
  unfold do_pickup
  by_cases hc : robot.carrying = 0
  · rw [if_pos hc]
    cases hscan : pickup_scan robot.position t packages with
    | none => exact ⟨robot, packages, rfl, phase_ok_rfl t packages, hco⟩
    | some x =>
      obtain ⟨j, pkg, hj, hw, hs, hle, hpid, hset⟩ :=
        pickup_scan_some robot.position t packages x.1 x.2 (by rw [hscan])
      have hph : PhaseOk t packages x.2 := by
        rw [hset]
        exact phase_ok_set t packages j pkg _ hj rfl
          (by simp [status_le, status_rank, hw]) (Or.inl rfl) rfl (by simp [hw])
      refine ⟨{ robot with carrying := x.1 }, x.2, rfl, hph, ?_⟩
      intro _
      refine ⟨{ pkg with status := Status.in_transit }, ?_, Or.inl rfl⟩
      have hidj : x.1 = j + 1 := by rw [hpid]; exact hids j pkg hj
      simp only [hidj, Nat.add_sub_cancel, hset]
      exact List.getElem?_set_eq (lt_length_of_getElem? hj)
  · rw [if_neg hc]
    exact ⟨robot, packages, rfl, phase_ok_rfl t packages, hco⟩

theorem do_drop_spec (dr delr : Rat) (t : Nat) (robot : Robot) (packages : List Package)
    (hco : carry_ok packages robot) :
    ∃ robot1 packages1 rr,
      do_drop dr delr t robot packages = .ok (robot1, packages1, rr) ∧
      PhaseOk t packages packages1 ∧ carry_ok packages1 robot1 := by
  unfold do_drop
  by_cases hc : robot.carrying = 0
  · rw [if_pos hc]
    exact ⟨robot, packages, 0, rfl, phase_ok_rfl t packages, hco⟩
  · rw [if_neg hc]
    obtain ⟨pkg, hp, hall⟩ := hco hc
    rw [hp]
    by_cases ht : robot.position = pkg.target
    · simp only [if_pos ht]
      refine ⟨_, _, _, rfl, ?_, ?_⟩
      · exact phase_ok_set t packages _ pkg _ hp rfl (status_le_delivered _)
          (Or.inr rfl) rfl (by rcases hall with h | h <;> simp [h])
      · intro hne
        exact absurd rfl hne
    · simp only [if_neg ht]
      exact ⟨robot, packages, 0, rfl, phase_ok_rfl t packages, hco⟩

theorem package_phase_spec (dr delr : Rat) (t : Nat)
    (l : List ((String × String) × Robot)) (packages : List Package)
    (hids : ∀ (j : Nat) (pkg : Package), packages[j]? = some pkg → pkg.package_id = j + 1)
    (hco : ∀ x ∈ l, carry_ok packages x.2) :
    ∃ robots1 packages1 rr,
      package_phase dr delr t l packages = .ok (robots1, packages1, rr) ∧
      PhaseOk t packages packages1 ∧
      (∀ rb ∈ robots1, carry_ok packages1 rb) := by
  induction l generalizing packages with
  | nil =>
    exact ⟨[], packages, 0, rfl, phase_ok_rfl t packages, by simp⟩
  | cons x rest ih =>
    have hcox : carry_ok packages x.2 := hco x (List.mem_cons_self x rest)
    have hrest0 : ∀ y ∈ rest, carry_ok packages y.2 :=
      fun y hy => hco y (List.mem_cons_of_mem x hy)
    by_cases h1 : x.1.2 = "1"
    · obtain ⟨robot1, packages1, hpick, hph, hco1⟩ :=
        do_pickup_spec t x.2 packages hids hcox
      obtain ⟨robots2, packages2, rr2, hrestE, hph2, hco2⟩ :=
        ih packages1 (hph.ids hids)
          (fun y hy => carry_ok_of_phase hph (hrest0 y hy))
      refine ⟨robot1 :: robots2, packages2, 0 + rr2, ?_, phase_ok_trans hph hph2, ?_⟩
      · unfold package_phase
        rw [if_pos h1, hpick]
        dsimp only
        rw [hrestE]
      · intro rb hrb
        rcases List.mem_cons.mp hrb with hrb | hrb
        · subst hrb
          exact carry_ok_of_phase hph2 hco1
        · exact hco2 rb hrb
    · by_cases h2 : x.1.2 = "2"
      · obtain ⟨robot1, packages1, rr1, hdrop, hph, hco1⟩ :=
          do_drop_spec dr delr t x.2 packages hcox
        obtain ⟨robots2, packages2, rr2, hrestE, hph2, hco2⟩ :=
          ih packages1 (hph.ids hids)
            (fun y hy => carry_ok_of_phase hph (hrest0 y hy))
        refine ⟨robot1 :: robots2, packages2, rr1 + rr2, ?_, phase_ok_trans hph hph2, ?_⟩
        · unfold package_phase
          rw [if_neg h1, if_pos h2, hdrop]
          dsimp only
          rw [hrestE]
        · intro rb hrb
          rcases List.mem_cons.mp hrb with hrb | hrb
          · subst hrb
            exact carry_ok_of_phase hph2 hco1
          · exact hco2 rb hrb
      · obtain ⟨robots2, packages2, rr2, hrestE, hph2, hco2⟩ := ih packages hids hrest0
        refine ⟨x.2 :: robots2, packages2, 0 + rr2, ?_, hph2, ?_⟩
        · unfold package_phase
          rw [if_neg h1, if_neg h2]
          dsimp only
          rw [hrestE]
        · intro rb hrb
          rcases List.mem_cons.mp hrb with hrb | hrb
          · subst hrb
            exact carry_ok_of_phase hph2 hcox
          · exact hco2 rb hrb

theorem move_phase_mem (mc : Rat) (l : List ((String × String) × Robot × Pos))
    (rb : Robot) (h : rb ∈ (move_phase mc l).1) :
    ∃ x ∈ l, rb = { x.2.1 with position := x.2.2 } := by
  induction l with
  | nil => simp [move_phase] at h
  | cons x rest ih =>
    simp only [move_phase] at h
    rcases List.mem_cons.mp h with h | h
    · exact ⟨x, List.mem_cons_self x rest, h⟩
    · obtain ⟨y, hy, he⟩ := ih h
      exact ⟨y, List.mem_cons_of_mem x hy, he⟩

/-- The reveal performed by `get_state` (env.py:141-145) only promotes
pending packages when every non-pending package spawned strictly before
the current tick, so the reveal is monotone and preserves the state
invariant. -/
theorem get_state_phase (env : Env)
    (hstrict : ∀ p ∈ env.packages, p.status ≠ Status.pending → p.start_time < env.t) :
    PhaseOk env.t env.packages (get_state env).1.packages ∧
    (∀ p ∈ (get_state env).1.packages, p.status ≠ Status.pending →
      p.start_time ≤ env.t) ∧
    (get_state env).1.robots = env.robots ∧
    (get_state env).1.t = env.t ∧
    (get_state env).1.max_time_steps = env.max_time_steps ∧
    (get_state env).1.total_reward = env.total_reward := by
  have hget : (get_state env).1.packages = env.packages.map fun p =>
      if p.start_time = env.t then { p with status := Status.waiting } else p := rfl
  constructor
  · constructor
    · rw [hget]
      exact List.length_map env.packages _
    · intro j pkg pkg1 hj hj1
      rw [hget, List.getElem?_map, hj] at hj1
      simp only [Option.map_some', Option.some.injEq] at hj1
      rw [← hj1]
      by_cases hts : pkg.start_time = env.t
      · rw [if_pos hts]
        by_cases hps : pkg.status = Status.pending
        · rw [hps]
          simp [status_le, status_rank]
        · exact absurd (hstrict pkg (List.mem_iff_getElem?.mpr ⟨j, hj⟩) hps) (by omega)
      · rw [if_neg hts]
        exact status_le_rfl _
    · intro hids j pkg1 hj1
      rw [hget, List.getElem?_map] at hj1
      cases hj : env.packages[j]? with
      | none => rw [hj] at hj1; exact Option.noConfusion hj1
      | some pkg =>
        rw [hj] at hj1
        simp only [Option.map_some', Option.some.injEq] at hj1
        rw [← hj1]
        by_cases hts : pkg.start_time = env.t
        · rw [if_pos hts]
          exact hids j pkg hj
        · rw [if_neg hts]
          exact hids j pkg hj
    · intro _ p hp hnp
      rw [hget] at hp
      obtain ⟨q, hq, hqe⟩ := List.mem_map.mp hp
      by_cases hts : q.start_time = env.t
      · rw [if_pos hts] at hqe
        rw [← hqe]
        dsimp only
        omega
      · rw [if_neg hts] at hqe
        rw [← hqe]
        exact Nat.le_of_lt (hstrict q hq (by rw [hqe]; exact hnp))
    · intro j pkg pkg1 hj hj1 hall
      rw [hget, List.getElem?_map, hj] at hj1
      simp only [Option.map_some', Option.some.injEq] at hj1
      rw [← hj1]
      have hnp : pkg.status ≠ Status.pending := by
        rcases hall with h | h <;> simp [h]
      have hlt := hstrict pkg (List.mem_iff_getElem?.mpr ⟨j, hj⟩) hnp
      rw [if_neg (by omega)]
      exact hall
  · refine ⟨?_, rfl, rfl, rfl, rfl⟩
    intro p hp hnp
    rw [hget] at hp
    obtain ⟨q, hq, hqe⟩ := List.mem_map.mp hp
    by_cases hts : q.start_time = env.t
    · rw [if_pos hts] at hqe
      rw [← hqe]
      dsimp only
      omega
    · rw [if_neg hts] at hqe
      rw [← hqe]
      exact Nat.le_of_lt (hstrict q hq (by rw [hqe]; exact hnp))

theorem check_terminate_iff (env : Env) :
    check_terminate env = true ↔
      env.t = env.max_time_steps ∨ ∀ p ∈ env.packages, p.status = Status.delivered := by
  unfold check_terminate
  by_cases h : env.t = env.max_time_steps
  · simp [h]
  · simp [h, List.all_eq_true, decide_eq_true_eq]

theorem step_spec (env : Env) (actions : List (String × String))
    (hinv : EnvInv env) (hlen : actions.length = env.robots.length) :
    ∃ snap r done infos env1,
      step env actions = .ok (snap, r, done, infos, env1) ∧
      EnvInv env1 ∧
      env1.t = env.t + 1 ∧
      env1.max_time_steps = env.max_time_steps ∧
      env1.packages.length = env.packages.length ∧
      (∀ (j : Nat) (pkg pkg1 : Package), env.packages[j]? = some pkg →
        env1.packages[j]? = some pkg1 → status_le pkg.status pkg1.status) ∧
      (done = true ↔ (env1.t = env1.max_time_steps ∨
        ∀ p ∈ env1.packages, p.status = Status.delivered)) ∧
      infos = (if done = true then some (env1.total_reward, env1.t) else none) := by
  have hcoall : ∀ x ∈ actions.zip (move_phase env.move_cost (actions.zip (env.robots.zip
      (resolve_moves (env.robots.map fun rb => rb.position)
        (proposed_positions env actions))))).1, carry_ok env.packages x.2 := by
    intro x hx
    obtain ⟨y, hy, hyx⟩ := move_phase_mem env.move_cost _ x.2 (List.of_mem_zip hx).2
    have hy2 : y.2.1 ∈ env.robots := (List.of_mem_zip (List.of_mem_zip hy).2).1
    rw [hyx]
    exact hinv.carry y.2.1 hy2
  obtain ⟨robots2, packages2, pr, hpp, hph, hco2⟩ :=
    package_phase_spec env.delivery_reward env.delay_reward env.t
      (actions.zip (move_phase env.move_cost (actions.zip (env.robots.zip
        (resolve_moves (env.robots.map fun rb => rb.position)
          (proposed_positions env actions))))).1) env.packages hinv.ids hcoall
  have hstrict : ∀ p ∈ packages2, p.status ≠ Status.pending → p.start_time < env.t + 1 := by
    intro p hp hnp
    have h1 := hph.spawn hinv.spawn_le p hp hnp
    omega
  obtain ⟨hph2, hsp2, hrb2, ht2, hmax2, htot2⟩ :=
    get_state_phase
      { env with
        robots := robots2
        packages := packages2
        t := env.t + 1
        total_reward := env.total_reward +
          ((move_phase env.move_cost (actions.zip (env.robots.zip
            (resolve_moves (env.robots.map fun rb => rb.position)
              (proposed_positions env actions))))).2 + pr) }
      hstrict
  have hmain : step env actions = .ok
      ((get_state { env with
          robots := robots2
          packages := packages2
          t := env.t + 1
          total_reward := env.total_reward +
            ((move_phase env.move_cost (actions.zip (env.robots.zip
              (resolve_moves (env.robots.map fun rb => rb.position)
                (proposed_positions env actions))))).2 + pr) }).2,
        (move_phase env.move_cost (actions.zip (env.robots.zip
          (resolve_moves (env.robots.map fun rb => rb.position)
            (proposed_positions env actions))))).2 + pr,
        check_terminate { env with
          robots := robots2
          packages := packages2
          t := env.t + 1
          total_reward := env.total_reward +
            ((move_phase env.move_cost (actions.zip (env.robots.zip
              (resolve_moves (env.robots.map fun rb => rb.position)
                (proposed_positions env actions))))).2 + pr) },
        (if check_terminate { env with
            robots := robots2
            packages := packages2
            t := env.t + 1
            total_reward := env.total_reward +
              ((move_phase env.move_cost (actions.zip (env.robots.zip
                (resolve_moves (env.robots.map fun rb => rb.position)
                  (proposed_positions env actions))))).2 + pr) } then
          some (env.total_reward +
            ((move_phase env.move_cost (actions.zip (env.robots.zip
              (resolve_moves (env.robots.map fun rb => rb.position)
                (proposed_positions env actions))))).2 + pr), env.t + 1)
        else none),
        (get_state { env with
          robots := robots2
          packages := packages2
          t := env.t + 1
          total_reward := env.total_reward +
            ((move_phase env.move_cost (actions.zip (env.robots.zip
              (resolve_moves (env.robots.map fun rb => rb.position)
                (proposed_positions env actions))))).2 + pr) }).1) := by
    unfold step
    rw [if_neg (fun h => h hlen)]
    dsimp only
    rw [hpp]
  refine ⟨_, _, _, _, _, hmain, ?_, ?_, ?_, ?_, ?_, ?_, ?_⟩
  · constructor
    · intro p hp hnp
      have := hsp2 p hp hnp
      rw [ht2]
      exact this
    · exact hph2.ids (hph.ids hinv.ids)
    · intro rb hrb
      rw [hrb2] at hrb
      exact carry_ok_of_phase hph2 (hco2 rb hrb)
  · exact ht2
  · exact hmax2
  · exact hph2.len.trans hph.len
  · intro j pkg pkg1 hj hj1
    obtain ⟨pkgm, hm⟩ := exists_getElem?_of_lt packages2 j (hph.len ▸ lt_length_of_getElem? hj)
    exact status_le_trans (hph.mono j pkg pkgm hj hm) (hph2.mono j pkgm pkg1 hm hj1)
  · rw [check_terminate_iff]
    have hdeliv : (∀ p ∈ packages2, p.status = Status.delivered) ↔
        (∀ p ∈ (get_state { env with
          robots := robots2
          packages := packages2
          t := env.t + 1
          total_reward := env.total_reward +
            ((move_phase env.move_cost (actions.zip (env.robots.zip
              (resolve_moves (env.robots.map fun rb => rb.position)
                (proposed_positions env actions))))).2 + pr) }).1.packages,
          p.status = Status.delivered) := by
      constructor
      · intro hall p hp
        obtain ⟨q, hq, hqe⟩ := List.mem_map.mp hp
        have hq2 := hall q hq
        have hne : ¬ q.start_time = env.t + 1 := by
          have := hph.spawn hinv.spawn_le q hq (by simp [hq2])
          omega
        rw [if_neg hne] at hqe
        rw [← hqe]
        exact hq2
      · intro hall q hq
        have hfq : (if q.start_time = env.t + 1 then
            { q with status := Status.waiting } else q) ∈
            (get_state { env with
              robots := robots2
              packages := packages2
              t := env.t + 1
              total_reward := env.total_reward +
                ((move_phase env.move_cost (actions.zip (env.robots.zip
                  (resolve_moves (env.robots.map fun rb => rb.position)
                    (proposed_positions env actions))))).2 + pr) }).1.packages := by
          exact List.mem_map.mpr ⟨q, hq, rfl⟩
        have hd := hall _ hfq
        by_cases hts : q.start_time = env.t + 1
        · rw [if_pos hts] at hd
          exact absurd hd (by simp)
        · rw [if_neg hts] at hd
          exact hd
    rw [ht2, hmax2]
    constructor
    · intro h
      rcases h with h | h
      · exact Or.inl h
      · exact Or.inr (hdeliv.mp h)
    · intro h
      rcases h with h | h
      · exact Or.inl h
      · exact Or.inr (hdeliv.mpr h)
  · rw [ht2, htot2]

theorem fresh_get_state_inv (env0 : Env) (h : fresh env0) :
    EnvInv (get_state env0).1 := by
  obtain ⟨_, hpend, hids, hcar⟩ := h
  have hstrict : ∀ p ∈ env0.packages, p.status ≠ Status.pending →
      p.start_time < env0.t :=
    fun p hp hnp => absurd (hpend p hp) hnp
  obtain ⟨hph, hsp, hrb, ht, _, _⟩ := get_state_phase env0 hstrict
  constructor
  · intro p hp hnp
    rw [ht]
    exact hsp p hp hnp
  · exact hph.ids hids
  · intro rb hrb1
    rw [hrb] at hrb1
    intro hne
    exact absurd (hcar rb hrb1) hne

theorem reachable_inv (env : Env) (h : Reachable env) : EnvInv env := by
  induction h with
  | reset_case env0 hf => exact fresh_get_state_inv env0 hf
  | step_case env acts snap r done infos env1 hre hok ih =>
    have hlen : acts.length = env.robots.length := by
      by_contra hne
      unfold step at hok
      rw [if_pos hne] at hok
      exact Except.noConfusion hok
    obtain ⟨snap2, r2, done2, infos2, env2, hmain, hinv2, _, _, _, _, _, _⟩ :=
      step_spec env acts ih hlen
    rw [hok] at hmain
    simp only [Except.ok.injEq, Prod.mk.injEq] at hmain
    obtain ⟨_, _, _, _, henv⟩ := hmain
    rw [← henv] at hinv2
    exact hinv2

/-- C6: for any step call from an invariant-respecting state, the returned
done flag is true exactly when the post-increment tick equals the horizon
or every package is delivered, and the info map carries the cumulative
reward and the elapsed tick count exactly when done is true, being empty
(here: `none`) otherwise (env.py:303-324). -/
theorem termination_and_info (env : Env) (actions : List (String × String))
    (snap : StateSnapshot) (r : Rat) (done : Bool) (infos : Option (Rat × Nat))
    (env1 : Env) (hinv : EnvInv env)
    (hok : step env actions = .ok (snap, r, done, infos, env1)) :
    (done = true ↔ (env1.t = env1.max_time_steps ∨
      ∀ p ∈ env1.packages, p.status = Status.delivered)) ∧
    infos = (if done = true then some (env1.total_reward, env1.t) else none) := by
  have hlen : actions.length = env.robots.length := by
    by_contra hne
    unfold step at hok
    rw [if_pos hne] at hok
    exact Except.noConfusion hok
  obtain ⟨snap2, r2, done2, infos2, env2, hmain, _, _, _, _, _, hdone2, hinfos2⟩ :=
    step_spec env actions hinv hlen
  rw [hok] at hmain
  simp only [Except.ok.injEq, Prod.mk.injEq] at hmain
  obtain ⟨hs, hr, hd, hi, henv⟩ := hmain
  rw [← hd, ← henv] at hdone2
  rw [← hd, ← hi, ← henv] at hinfos2
  exact ⟨hdone2, hinfos2⟩

/-- C7: along any run (a reset followed by successful steps), one further
step never moves any package's status down the order
Pending < Waiting < InTransit < Delivered, and a delivered package stays
delivered (env.py:141-145, 267-300). -/
theorem package_lifecycle_monotone (env : Env) (actions : List (String × String))
    (snap : StateSnapshot) (r : Rat) (done : Bool) (infos : Option (Rat × Nat))
    (env1 : Env) (hreach : Reachable env)
    (hok : step env actions = .ok (snap, r, done, infos, env1)) :
    env1.packages.length = env.packages.length ∧
    (∀ (j : Nat) (pkg pkg1 : Package), env.packages[j]? = some pkg →
      env1.packages[j]? = some pkg1 → status_le pkg.status pkg1.status) ∧
    (∀ (j : Nat) (pkg pkg1 : Package), env.packages[j]? = some pkg →
      env1.packages[j]? = some pkg1 → pkg.status = Status.delivered →
      pkg1.status = Status.delivered) := by
  have hinv := reachable_inv env hreach
  have hlen : actions.length = env.robots.length := by
    by_contra hne
    unfold step at hok
    rw [if_pos hne] at hok
    exact Except.noConfusion hok
  obtain ⟨snap2, r2, done2, infos2, env2, hmain, _, _, _, hlen2, hmono2, _, _⟩ :=
    step_spec env actions hinv hlen
  rw [hok] at hmain
  simp only [Except.ok.injEq, Prod.mk.injEq] at hmain
  obtain ⟨_, _, _, _, henv⟩ := hmain
  rw [← henv] at hlen2 hmono2
  refine ⟨hlen2, hmono2, ?_⟩
  intro j pkg pkg1 hj hj1 hdel
  have hle := hmono2 j pkg pkg1 hj hj1
  rw [hdel] at hle
  exact delivered_of_status_le hle

/-- C5: the movement-cost pass of env.py:260-265 charges, per robot,
exactly `move_cost` when the action was directional and the resolved
final position differs from the pre-step position, and nothing
otherwise; consequently every step reward decomposes as that per-robot
sum plus the package-pass reward. -/
theorem move_cost_rule :
    (∀ (mc : Rat) (l : List ((String × String) × Robot × Pos)),
      (move_phase mc l).2 = (l.map fun x =>
        if directional x.1.1 = true ∧ x.2.2 ≠ x.2.1.position then mc else 0).sum) ∧
    (∀ (env : Env) (actions : List (String × String)) (snap : StateSnapshot)
      (r : Rat) (done : Bool) (infos : Option (Rat × Nat)) (env1 : Env),
      step env actions = .ok (snap, r, done, infos, env1) →
      ∃ pkg_r : Rat,
        r = (move_phase env.move_cost (actions.zip (env.robots.zip
          (resolve_moves (env.robots.map fun rb => rb.position)
            (proposed_positions env actions))))).2 + pkg_r) := by
  constructor
  · intro mc l
    induction l with
    | nil => simp [move_phase]
    | cons x rest ih => simp [move_phase, ih]
  · intro env actions snap r done infos env1 hok
    unfold step at hok
    by_cases hne : actions.length ≠ env.robots.length
    · rw [if_pos hne] at hok
      exact Except.noConfusion hok
    · rw [if_neg hne] at hok
      dsimp only at hok
      cases hpp : package_phase env.delivery_reward env.delay_reward env.t
          (actions.zip (move_phase env.move_cost (actions.zip (env.robots.zip
            (resolve_moves (env.robots.map fun rb => rb.position)
              (proposed_positions env actions))))).1) env.packages with
      | error e =>
        rw [hpp] at hok
        exact Except.noConfusion hok
      | ok y =>
        rw [hpp] at hok
        simp only [Except.ok.injEq, Prod.mk.injEq] at hok
        exact ⟨y.2.2, hok.2.1.symm⟩

/-- Full evaluation of one step of the sample environment under the action
(Stay, no package action): the episode terminates at tick 1 because the
package list is empty. -/
theorem sample_step_eq :
    step sample_env [("S", "0")] = .ok
      ({ time_step := 1, map := [[0, 0, 0]], robots := [(1, 1, 0)], packages := [] },
        (0 : Rat) + 0 + (0 + 0), true,
        some ((0 : Rat) + ((0 : Rat) + 0 + (0 + 0)), 1),
        { grid := [[0, 0, 0]], n_rows := 1, n_cols := 3, move_cost := 0,
          delivery_reward := 0, delay_reward := 0, t := 1,
          robots := [{ position := (0, 0), carrying := 0 }], packages := [],
          total_reward := (0 : Rat) + ((0 : Rat) + 0 + (0 + 0)),
          max_time_steps := 10 }) := rfl

theorem sample_env_inv : EnvInv sample_env := by
  constructor
  · intro p hp
    simp [sample_env] at hp
  · intro j pkg hj
    simp [sample_env] at hj
  · intro rb hrb
    simp [sample_env] at hrb
    intro hne
    rw [hrb] at hne
    simp at hne

/-- C5 witness: the sample step's reward decomposes over the movement
charges. -/
theorem move_cost_rule_witness :
    ∃ pkg_r : Rat,
      (0 : Rat) + 0 + (0 + 0) =
        (move_phase sample_env.move_cost ([("S", "0")].zip (sample_env.robots.zip
          (resolve_moves (sample_env.robots.map fun rb => rb.position)
            (proposed_positions sample_env [("S", "0")]))))).2 + pkg_r :=
  move_cost_rule.2 sample_env [("S", "0")] _ _ _ _ _ sample_step_eq

/-- C6 witness: the sample step terminates (no packages) with the info map
populated. -/
theorem termination_and_info_witness :
    ((true : Bool) = true ↔ ((1 : Nat) = 10 ∨
      ∀ p ∈ ([] : List Package), p.status = Status.delivered)) ∧
    (some ((0 : Rat) + ((0 : Rat) + 0 + (0 + 0)), 1) : Option (Rat × Nat)) =
      (if (true : Bool) = true then
        some ((0 : Rat) + ((0 : Rat) + 0 + (0 + 0)), 1) else none) :=
  termination_and_info sample_env [("S", "0")] _ _ _ _ _ sample_env_inv sample_step_eq

theorem sample_env_fresh : fresh sample_env := by
  refine ⟨rfl, ?_, ?_, ?_⟩
  · intro p hp
    simp [sample_env] at hp
  · intro j pkg hj
    simp [sample_env] at hj
  · intro rb hrb
    simp [sample_env] at hrb
    rw [hrb]

/-- C7 witness: the sample environment is reachable (it is its own reset
image), and the sample step keeps the (empty) package list monotone. -/
theorem package_lifecycle_monotone_witness :
    ([] : List Package).length = ([] : List Package).length ∧
    (∀ (j : Nat) (pkg pkg1 : Package), ([] : List Package)[j]? = some pkg →
      ([] : List Package)[j]? = some pkg1 → status_le pkg.status pkg1.status) ∧
    (∀ (j : Nat) (pkg pkg1 : Package), ([] : List Package)[j]? = some pkg →
      ([] : List Package)[j]? = some pkg1 → pkg.status = Status.delivered →
      pkg1.status = Status.delivered) :=
  package_lifecycle_monotone sample_env [("S", "0")] _ _ _ _ _
    (Reachable.reset_case sample_env sample_env_fresh) sample_step_eq

/-! ## Congruence of a step in the move symbol -/

theorem proposed_positions_congr (env : Env) (act1 act2 : String × String)
    (hmv : ∀ p : Pos, compute_new_position p act1.1 = compute_new_position p act2.1)
    (pre post : List (String × String)) :
    proposed_positions env (pre ++ act1 :: post) =
    proposed_positions env (pre ++ act2 :: post) := by
  unfold proposed_positions
  generalize env.robots = robots
  induction pre generalizing robots with
  | nil =>
    cases robots with
    | nil => rfl
    | cons r rs =>
      simp only [List.nil_append, List.zip_cons_cons, List.map_cons]
      rw [hmv r.position]
  | cons x pre ih =>
    cases robots with
    | nil => rfl
    | cons r rs =>
      simp only [List.cons_append, List.zip_cons_cons, List.map_cons] at ih ⊢
      rw [ih rs]

theorem move_phase_congr (mc : Rat) (act1 act2 : String × String)
    (hdir : directional act1.1 = directional act2.1)
    (pre post : List (String × String)) (z : List (Robot × Pos)) :
    move_phase mc ((pre ++ act1 :: post).zip z) =
    move_phase mc ((pre ++ act2 :: post).zip z) := by
  induction pre generalizing z with
  | nil =>
    cases z with
    | nil => rfl
    | cons r rs =>
      simp only [List.nil_append, List.zip_cons_cons]
      unfold move_phase
      dsimp only
      rw [hdir]
  | cons x pre ih =>
    cases z with
    | nil => rfl
    | cons r rs =>
      simp only [List.cons_append, List.zip_cons_cons] at ih ⊢
      unfold move_phase
      dsimp only
      rw [ih rs]

theorem package_phase_congr (dr delr : Rat) (t : Nat) (act1 act2 : String × String)
    (hpa : act1.2 = act2.2)
    (pre post : List (String × String)) (robots : List Robot)
    (packages : List Package) :
    package_phase dr delr t ((pre ++ act1 :: post).zip robots) packages =
    package_phase dr delr t ((pre ++ act2 :: post).zip robots) packages := by
  induction pre generalizing robots packages with
  | nil =>
    cases robots with
    | nil => rfl
    | cons r rs =>
      simp only [List.nil_append, List.zip_cons_cons]
      unfold package_phase
      dsimp only
      rw [hpa]
  | cons x pre ih =>
    cases robots with
    | nil => rfl
    | cons r rs =>
      simp only [List.cons_append, List.zip_cons_cons] at ih ⊢
      unfold package_phase
      dsimp only
      simp only [ih]

theorem step_action_congr (env : Env) (act1 act2 : String × String)
    (hmv : ∀ p : Pos, compute_new_position p act1.1 = compute_new_position p act2.1)
    (hdir : directional act1.1 = directional act2.1)
    (hpa : act1.2 = act2.2)
    (pre post : List (String × String)) :
    step env (pre ++ act1 :: post) = step env (pre ++ act2 :: post) := by
  have hlen : (pre ++ act1 :: post).length = (pre ++ act2 :: post).length := by
    simp
  unfold step
  rw [hlen, proposed_positions_congr env act1 act2 hmv pre post]
  simp only [move_phase_congr env.move_cost act1 act2 hdir pre post,
    package_phase_congr env.delivery_reward env.delay_reward env.t act1 act2 hpa pre post]

/-- C10: any move symbol outside the documented five behaves exactly like
Stay: `compute_new_position` falls into its final else branch
(env.py:341-342), so the proposed target is the robot's current cell;
the symbol fails the directional test of env.py:263, so no move cost is
charged for that robot; and a step call carrying such a symbol raises
nothing, returning exactly what the same call with Stay in that slot
returns. -/
theorem unknown_move_acts_as_stay (move : String) (p : Pos)
    (h : move ∉ (["S", "L", "R", "U", "D"] : List String)) :
    compute_new_position p move = compute_new_position p "S" ∧
    directional move = false ∧
    (∀ (env : Env) (pre post : List (String × String)) (pa : String),
      step env (pre ++ (move, pa) :: post) = step env (pre ++ ("S", pa) :: post)) := by
  simp only [List.mem_cons, List.not_mem_nil, or_false, not_or] at h
  obtain ⟨h1, h2, h3, h4, h5⟩ := h
  have hmv : ∀ q : Pos, compute_new_position q move = compute_new_position q "S" := by
    intro q
    unfold compute_new_position
    rw [if_neg h1, if_neg h2, if_neg h3, if_neg h4, if_neg h5, if_pos rfl]
  have hdir : directional move = false := by
    unfold directional
    simp [h2, h3, h4, h5]
  refine ⟨hmv p, hdir, ?_⟩
  intro env pre post pa
  exact step_action_congr env (move, pa) ("S", pa) hmv (by rw [hdir]; rfl) rfl pre post

/-- C10 witness: the symbol "X" at the sample environment. -/
theorem unknown_move_acts_as_stay_witness :
    compute_new_position ((2 : Int), (3 : Int)) "X" =
      compute_new_position ((2 : Int), (3 : Int)) "S" ∧
    directional "X" = false ∧
    (∀ (env : Env) (pre post : List (String × String)) (pa : String),
      step env (pre ++ ("X", pa) :: post) = step env (pre ++ ("S", pa) :: post)) :=
  unknown_move_acts_as_stay "X" ((2 : Int), (3 : Int)) (by decide)

end MarlDelivery
